import Mathlib

/-!
Verification development for `src/sentry/runner/commands/devservices.py`.

The development shallowly embeds the devservices command module: the static
service registry (`ServiceOptions`), option resolution (`_prepare_containers`
and `ensure_interface`), the reconciler (`_start_service`) and the four CLI
commands (`attach`, `up`, `down`, `rm`).  The external container engine is
modelled by an explicit `DockerState` (containers, volumes, networks, images
known to the engine) plus a trace of engine calls (`Event`).  Python's
`str.format` interpolation of environment values and the substring test
`"snuba" in settings.SENTRY_EVENTSTREAM` are external inputs and appear as
parameters (`fmt`, `snuba`).
-/

namespace Devservices

/-- Python `s.startswith(p)`, written over the character list so that the
kernel can evaluate it on concrete strings. -/
def startsWith (s p : String) : Bool := p.data.isPrefixOf s.data

/-- Python `c in s` for a single character, over the character list. -/
def containsChar (s : String) (c : Char) : Bool := s.data.contains c

/-- A port binding value in the registry: either a bare host port or an
explicit (host interface, host port) tuple, as accepted by
`ensure_interface`. -/
inductive PortVal
  | bare (p : Nat)
  | iface (host : String) (p : Nat)
deriving DecidableEq, Repr

/-- `ensure_interface`: if a port value is not already a tuple, bind it to
`("127.0.0.1", port)`; tuples pass through unchanged. -/
def ensure_interface (ports : List (Nat × PortVal)) : List (Nat × (String × Nat)) :=
  ports.map fun kv =>
    match kv.2 with
    | PortVal.bare p => (kv.1, ("127.0.0.1", p))
    | PortVal.iface host p => (kv.1, (host, p))

/-- One entry of `settings.SENTRY_DEVSERVICES`: the declarative launch options
of a service.  Absent option keys are modelled by the field defaults; the
`only_if` predicate is modelled by its boolean value on the ambient settings
(absent means included, i.e. `true`). -/
structure ServiceOptions where
  image : String
  ports : List (Nat × PortVal) := []
  environment : List (String × String) := []
  volumes : List (String × String) := []
  pull : Bool := false
  with_devserver : Bool := false
  only_if : Bool := true
  command : Option (List String) := none
  restart_policy : Option String := none
deriving DecidableEq, Repr

/-- Options after `_prepare_containers`: defaults applied, name and network
namespaced by the project, ports normalised by `ensure_interface`. -/
structure ResolvedOptions where
  name : String
  network : String
  detach : Bool
  image : String
  ports : List (Nat × (String × Nat))
  environment : List (String × String)
  volumes : List (String × String)
  restart_policy : String
  pull : Bool
  with_devserver : Bool
  command : Option (List String)
deriving DecidableEq, Repr

/-- The body of the `_prepare_containers` loop for one registry entry. -/
def resolveService (project : String) (name : String) (o : ServiceOptions) : ResolvedOptions where
  name := project ++ "_" ++ name
  network := project
  detach := true
  image := o.image
  ports := ensure_interface o.ports
  environment := o.environment
  volumes := o.volumes
  restart_policy := o.restart_policy.getD "on-failure"
  pull := o.pull
  with_devserver := o.with_devserver
  command := o.command

/-- `_prepare_containers`: drop services whose `only_if` predicate rejects the
settings, resolve the rest.  The registry dict is modelled as an association
list in iteration order. -/
def _prepare_containers (project : String)
    (registry : List (String × ServiceOptions)) : List (String × ResolvedOptions) :=
  registry.filterMap fun e =>
    if e.2.only_if then some (e.1, resolveService project e.1 e.2) else none

/-- Python dict lookup `containers[name]` on the association-list model. -/
def lookupService (containers : List (String × ResolvedOptions)) (name : String) :
    Option ResolvedOptions :=
  match containers with
  | [] => none
  | e :: rest => if e.1 = name then some e.2 else lookupService rest name

/-- An engine-side container handle: its name and whether it is running. -/
structure Container where
  name : String
  running : Bool
deriving DecidableEq, Repr

/-- The container engine's view of the world: named containers, volumes,
networks, and locally present images. -/
structure DockerState where
  containers : List Container
  volumes : List String
  networks : List String
  images : List String
deriving DecidableEq, Repr

/-- One engine API call issued by the tool. -/
inductive Event
  | pullImage (image : String)
  | createVolume (volume : String)
  | createNetwork (network : String)
  | createContainer (cname : String)
  | startContainer (cname : String)
  | stopContainer (cname : String)
  | removeContainer (cname : String)
  | removeVolume (volume : String)
  | removeNetwork (network : String)
deriving DecidableEq, Repr

/-- `client.containers.get(name)` restricted to lookup by name. -/
def findContainer (st : DockerState) (n : String) : Option Container :=
  st.containers.find? fun c => c.name = n

def addContainer (st : DockerState) (c : Container) : DockerState :=
  { st with containers := st.containers ++ [c] }

def removeContainerNamed (st : DockerState) (n : String) : DockerState :=
  { st with containers := st.containers.filter (fun c => c.name ≠ n) }

/-- `container.start()` / `container.stop()` effect on the engine state. -/
def setRunning (st : DockerState) (n : String) (b : Bool) : DockerState :=
  { st with containers := st.containers.map (fun c =>
      if c.name = n then { c with running := b } else c) }

def addImage (st : DockerState) (i : String) : DockerState :=
  if st.images.contains i then st else { st with images := st.images ++ [i] }

def addVolume (st : DockerState) (v : String) : DockerState :=
  { st with volumes := st.volumes ++ [v] }

def addNetwork (st : DockerState) (n : String) : DockerState :=
  { st with networks := st.networks ++ [n] }

/-- The image-freshness block of `_start_service`: in fast mode never pull;
otherwise pull when the `pull` flag is set, and otherwise pull exactly when
the image is absent locally (`client.images.get` raises NotFound). -/
def pullPhase (fast pull : Bool) (image : String) (st : DockerState) :
    DockerState × List Event :=
  if fast then (st, [])
  else if pull then (addImage st image, [Event.pullImage image])
  else if st.images.contains image then (st, [])
  else (addImage st image, [Event.pullImage image])

/-- The named-volume loop of `_start_service`: for each mount key without a
path separator, `get_or_create` the project-namespaced volume (a create call
is issued only when the volume does not exist yet). -/
def volumePhase (project : String) :
    DockerState → List (String × String) → DockerState × List Event
  | st, [] => (st, [])
  | st, kv :: rest =>
    if st.volumes.contains (project ++ "_" ++ kv.1) then volumePhase project st rest
    else
      ((volumePhase project (addVolume st (project ++ "_" ++ kv.1)) rest).1,
       Event.createVolume (project ++ "_" ++ kv.1) ::
         (volumePhase project (addVolume st (project ++ "_" ++ kv.1)) rest).2)

/-- The `client.containers.create(**options)` block of `_start_service`,
shared by the not-found and the recreate paths: create the container, and
start it unless the service is deferred to devserver (`with_devserver`) and
the call did not come from `attach` (`always_start`). -/
def createAndStart (options : ResolvedOptions) (always_start : Bool)
    (st : DockerState) : DockerState × List Event × Container :=
  if options.with_devserver && !always_start then
    (addContainer st ⟨options.name, false⟩, [Event.createContainer options.name],
     ⟨options.name, false⟩)
  else
    (setRunning (addContainer st ⟨options.name, false⟩) options.name true,
     [Event.createContainer options.name, Event.startContainer options.name],
     ⟨options.name, true⟩)

/-- `should_reuse_container`: initialised to `not pull`, then overridden to
True when the service is marked `with_devserver` or fast mode is active. -/
def shouldReuse (options : ResolvedOptions) (fast : Bool) : Bool :=
  if options.with_devserver || fast then true else !options.pull

/-- The container-lookup-and-reconcile block of `_start_service`.  When the
container exists: reuse it unless a forced pull demands a fresh image, but
`with_devserver` or fast mode force reuse; on reuse, start it unless it is
deferred (`with_devserver` without `always_start`); otherwise stop it, remove
it and fall through to create.  (Stopping a container that is then removed
leaves no trace in the state beyond the removal itself.) -/
def containerPhase (options : ResolvedOptions) (fast always_start : Bool)
    (st : DockerState) : DockerState × List Event × Container :=
  match findContainer st options.name with
  | none => createAndStart options always_start st
  | some c =>
    if shouldReuse options fast then
      if options.with_devserver && !always_start then (st, [], c)
      else (setRunning st options.name true, [Event.startContainer options.name],
            ⟨c.name, true⟩)
    else
      ((createAndStart options always_start (removeContainerNamed st options.name)).1,
       Event.stopContainer options.name :: Event.removeContainer options.name ::
         (createAndStart options always_start (removeContainerNamed st options.name)).2.1,
       (createAndStart options always_start (removeContainerNamed st options.name)).2.2)

/-- Result of `_start_service`: the engine state, the trace of engine calls,
the returned container handle, and the final contents of the service's
`environment` and `volumes` dicts.  `_prepare_containers` copies each options
dict only shallowly (`options.copy()`), so these two nested dicts are the very
objects stored in the registry entry: `envAfter`/`volumesAfter` record what the
registry entry's nested dicts hold once the call returns. -/
structure StartResult where
  state : DockerState
  events : List Event
  container : Container
  envAfter : List (String × String)
  volumesAfter : List (String × String)
deriving DecidableEq, Repr

/-- The body of `_start_service` once `containers[name]` has been looked up:
the snuba override, environment interpolation, the image-freshness block, the
named-volume loop, and the container lookup/reconcile block, in source
order. -/
def startResolved (fmt : List (String × ResolvedOptions) → String → String)
    (snuba : Bool) (st : DockerState) (name : String)
    (containers : List (String × ResolvedOptions)) (project : String)
    (fast always_start : Bool) (options : ResolvedOptions) : StartResult :=
  let env1 := if (name == "snuba") && snuba then
      options.environment.filter (fun kv => kv.1 ≠ "DEFAULT_BROKERS")
    else options.environment
  let env := env1.map fun kv => (kv.1, fmt containers kv.2)
  let p := pullPhase fast options.pull options.image st
  let named := options.volumes.filter fun kv => !(containsChar kv.1 '/')
  let v := volumePhase project p.1 named
  let volumes2 := (options.volumes.filter fun kv => containsChar kv.1 '/')
      ++ named.map fun kv => (project ++ "_" ++ kv.1, kv.2)
  let c := containerPhase options fast always_start v.1
  ⟨c.1, p.2 ++ v.2 ++ c.2.1, c.2.2, env, volumes2⟩

/-- `_start_service(client, name, containers, project, fast, always_start)`.
`fmt` models Python `value.format(containers=containers)`; `snuba` models the
ambient `"snuba" in settings.SENTRY_EVENTSTREAM`.  Returns `none` when `name`
is not a key of `containers` (a KeyError in Python; both call sites guard
against it). -/
def _start_service (fmt : List (String × ResolvedOptions) → String → String)
    (snuba : Bool) (st : DockerState) (name : String)
    (containers : List (String × ResolvedOptions)) (project : String)
    (fast always_start : Bool) : Option StartResult :=
  match lookupService containers name with
  | none => none
  | some options =>
    some (startResolved fmt snuba st name containers project fast always_start options)

/-- `attach`: resolve the registry, fail on an unknown or disabled service
(`none`, a ClickException in Python), and run the reconciler with
`always_start=True`. -/
def attach (fmt : List (String × ResolvedOptions) → String → String)
    (snuba : Bool) (st : DockerState) (project : String)
    (registry : List (String × ServiceOptions)) (fast : Bool)
    (service : String) : Option StartResult :=
  _start_service fmt snuba st service (_prepare_containers project registry)
    project fast true

/-- The per-service loop of `up`: iterate the registry in order, skip excluded
services and services absent from the resolved mapping, reconcile the rest
with `always_start=False`, accumulating the engine state and call trace. -/
def upServices (fmt : List (String × ResolvedOptions) → String → String)
    (snuba : Bool) (project : String)
    (containers : List (String × ResolvedOptions)) (exclude : List String)
    (fast : Bool) : DockerState → List (String × ServiceOptions) → DockerState × List Event
  | st, [] => (st, [])
  | st, entry :: rest =>
    if exclude.contains entry.1 then
      upServices fmt snuba project containers exclude fast st rest
    else
      match _start_service fmt snuba st entry.1 containers project fast false with
      | none => upServices fmt snuba project containers exclude fast st rest
      | some r =>
        ((upServices fmt snuba project containers exclude fast r.state rest).1,
         r.events ++ (upServices fmt snuba project containers exclude fast r.state rest).2)

/-- `up`: `get_or_create` the project network, resolve the registry, reconcile
every enabled, non-excluded service. -/
def up (fmt : List (String × ResolvedOptions) → String → String)
    (snuba : Bool) (st : DockerState) (project : String)
    (registry : List (String × ServiceOptions)) (exclude : List String)
    (fast : Bool) : DockerState × List Event :=
  let netEvents := if st.networks.contains project then []
    else [Event.createNetwork project]
  let st1 := if st.networks.contains project then st else addNetwork st project
  let containers := _prepare_containers project registry
  let r := upServices fmt snuba project containers exclude fast st1 registry
  (r.1, netEvents ++ r.2)

/-- The filter shared by `down` and `rm`: the container name starts with
`project + "_"` and, when a service filter was given, the name with that
prefix stripped is one of the requested services. -/
def nameMatches (project : String) (service : List String) (n : String) : Bool :=
  startsWith n (project ++ "_") &&
    (service.isEmpty || service.contains (n.drop (project ++ "_").length))

/-- `down`: stop every listed container matching the project/service filter. -/
def down (st : DockerState) (project : String) (service : List String) :
    DockerState × List Event :=
  ({ st with containers := st.containers.map (fun c =>
       if nameMatches project service c.name then { c with running := false } else c) },
   (st.containers.filter fun c => nameMatches project service c.name).map
     fun c => Event.stopContainer c.name)

/-- The container loop of `rm`: each matching container is stopped and then
removed. -/
def rmContainerEvents : List Container → List Event
  | [] => []
  | c :: rest =>
    Event.stopContainer c.name :: Event.removeContainer c.name :: rmContainerEvents rest

/-- `rm`: `click.confirm(..., abort=True)` runs before any engine call, so a
declined confirmation (`confirmed = false`) returns with no effect.  Otherwise
stop and remove matching containers, remove matching volumes, and, only when
no service filter was given, remove the project network (when it exists). -/
def rm (st : DockerState) (project : String) (service : List String)
    (confirmed : Bool) : DockerState × List Event :=
  if !confirmed then (st, [])
  else
    let cs := st.containers.filter fun c => nameMatches project service c.name
    let keptContainers := st.containers.filter fun c => !(nameMatches project service c.name)
    let st1 := { st with containers := keptContainers }
    let vs := st.volumes.filter fun v => nameMatches project service v
    let keptVolumes := st.volumes.filter fun v => !(nameMatches project service v)
    let st2 := { st1 with volumes := keptVolumes }
    let nEvents := if service.isEmpty && st.networks.contains project then
        [Event.removeNetwork project]
      else []
    let st3 := if service.isEmpty then
        { st2 with networks := st2.networks.filter (fun n => n ≠ project) }
      else st2
    (st3, rmContainerEvents cs ++ vs.map Event.removeVolume ++ nEvents)

/-- The engine state after the image and named-volume phases, on which the
container phase of `_start_service` operates. -/
def midState (project : String) (fast : Bool) (options : ResolvedOptions)
    (st : DockerState) : DockerState :=
  (volumePhase project (pullPhase fast options.pull options.image st).1
    (options.volumes.filter fun kv => !(containsChar kv.1 '/'))).1

/-- No container-churn engine call (create, stop, remove) addressed to the
container named `nm` occurs in the trace. -/
def noChurn (nm : String) (evs : List Event) : Prop :=
  Event.createContainer nm ∉ evs ∧ Event.stopContainer nm ∉ evs ∧
    Event.removeContainer nm ∉ evs

/-! ### Concrete instances used to exercise the commands -/

/-- The identity interpolation: environment values with no template fields. -/
def idFmt : List (String × ResolvedOptions) → String → String := fun _ s => s

def emptyState : DockerState := ⟨[], [], [], []⟩

/-- A one-service registry with a forced pull flag. -/
def pullRegistry : List (String × ServiceOptions) :=
  [("db", { image := "postgres:9.6", pull := true })]

/-- A one-service registry with no special flags. -/
def plainRegistry : List (String × ServiceOptions) := [("db", { image := "postgres:9.6" })]

/-- A one-service registry whose service is deferred to devserver. -/
def devserverRegistry : List (String × ServiceOptions) :=
  [("web", { image := "sentry-web", with_devserver := true })]

/-- A one-service registry with a named volume mount. -/
def volumeRegistry : List (String × ServiceOptions) :=
  [("db", { image := "postgres:9.6", volumes := [("data", "/var/lib/postgresql/data")] })]

def plainOptions : ResolvedOptions := resolveService "sentry" "db" { image := "postgres:9.6" }

def plainContainers : List (String × ResolvedOptions) :=
  _prepare_containers "sentry" plainRegistry

/-- An engine state that already holds the (stopped) container of
`plainRegistry`'s service and its image. -/
def existingState : DockerState := ⟨[⟨"sentry_db", false⟩], [], [], ["postgres:9.6"]⟩

def c1Result : StartResult :=
  startResolved idFmt false existingState "db" plainContainers "sentry" false false
    plainOptions

def c4Result : StartResult :=
  startResolved idFmt false emptyState "db" plainContainers "sentry" false false
    plainOptions

/-- An engine state holding containers of two different namespaces. -/
def c8State : DockerState := ⟨[⟨"sentry_db", true⟩, ⟨"other_db", true⟩], [], [], []⟩

/-- An engine state with a container of the project "sentry_x", whose name
nevertheless starts with the prefix of the project "sentry". -/
def c10State : DockerState := ⟨[⟨"sentry_x_db", true⟩], [], [], []⟩

/-- An engine state populated only with resources of the project "other". -/
def c10wState : DockerState := ⟨[⟨"other_db", true⟩], ["other_data"], ["other"], []⟩

/-- An engine state with one container, one volume and the network of the
project "sentry". -/
def c7State : DockerState := ⟨[⟨"sentry_db", true⟩], ["sentry_data"], ["sentry"], []⟩

def devserverOptions : ResolvedOptions :=
  resolveService "sentry" "web" { image := "sentry-web", with_devserver := true }

/-- The result of `attach` on the deferred service of `devserverRegistry`. -/
def c2AttachResult : StartResult :=
  startResolved idFmt false emptyState "web" (_prepare_containers "sentry" devserverRegistry)
    "sentry" false true devserverOptions

/-- The first `up` over the forced-pull registry, from an empty engine. -/
def c3First : DockerState × List Event :=
  up idFmt false emptyState "sentry" pullRegistry [] false

/-- A second, immediate `up` over the unchanged forced-pull registry. -/
def c3Second : DockerState × List Event :=
  up idFmt false c3First.1 "sentry" pullRegistry [] false

/-- Reconciling the named-volume service of `volumeRegistry` from an empty
engine. -/
def c9Run : Option StartResult :=
  _start_service idFmt false emptyState "db" (_prepare_containers "sentry" volumeRegistry)
    "sentry" false false

def volumeOptions : ResolvedOptions :=
  resolveService "sentry" "db"
    { image := "postgres:9.6", volumes := [("data", "/var/lib/postgresql/data")] }

def c9Result : StartResult :=
  startResolved idFmt false emptyState "db" (_prepare_containers "sentry" volumeRegistry)
    "sentry" false false volumeOptions

/-! ### Basic facts about the engine-state operations -/

theorem findContainer_congr {st1 st2 : DockerState} (n : String)
    (h : st1.containers = st2.containers) : findContainer st1 n = findContainer st2 n := by
  unfold findContainer
  rw [h]

theorem addImage_containers (st : DockerState) (i : String) :
    (addImage st i).containers = st.containers := by
  unfold addImage
  split <;> rfl

theorem addVolume_containers (st : DockerState) (v : String) :
    (addVolume st v).containers = st.containers := rfl

theorem addNetwork_containers (st : DockerState) (n : String) :
    (addNetwork st n).containers = st.containers := rfl

theorem pullPhase_containers (fast pull : Bool) (image : String) (st : DockerState) :
    (pullPhase fast pull image st).1.containers = st.containers := by
  unfold pullPhase
  split
  · rfl
  · split
    · exact addImage_containers st image
    · split
      · rfl
      · exact addImage_containers st image

theorem pullPhase_events {fast pull : Bool} {image : String} {st : DockerState} {e : Event}
    (h : e ∈ (pullPhase fast pull image st).2) : e = Event.pullImage image := by
  unfold pullPhase at h
  split at h
  · simp at h
  · split at h
    · simpa using h
    · split at h
      · simp at h
      · simpa using h

theorem volumePhase_containers (project : String) (st : DockerState)
    (l : List (String × String)) :
    (volumePhase project st l).1.containers = st.containers := by
  induction l generalizing st with
  | nil => rfl
  | cons kv rest ih =>
    unfold volumePhase
    split
    · exact ih st
    · simpa [addVolume_containers] using ih (addVolume st (project ++ "_" ++ kv.1))

theorem volumePhase_events {project : String} {st : DockerState}
    {l : List (String × String)} {e : Event}
    (h : e ∈ (volumePhase project st l).2) : ∃ m, e = Event.createVolume m := by
  induction l generalizing st with
  | nil => simp [volumePhase] at h
  | cons kv rest ih =>
    unfold volumePhase at h
    split at h
    · exact ih h
    · rcases List.mem_cons.mp h with h1 | h2
      · exact ⟨project ++ "_" ++ kv.1, h1⟩
      · exact ih h2

/-! ### `findContainer` under the container-mutating operations -/

theorem find?_congr_pred {α : Type} {p q : α → Bool} (l : List α) (h : ∀ a ∈ l, p a = q a) :
    l.find? p = l.find? q := by
  induction l with
  | nil => rfl
  | cons a l ih =>
    have ha := h a (by simp)
    cases hq : q a with
    | true => rw [List.find?_cons_of_pos l (ha.trans hq), List.find?_cons_of_pos l hq]
    | false =>
      rw [List.find?_cons_of_neg l (by simp [ha, hq]), List.find?_cons_of_neg l (by simp [hq])]
      exact ih fun a hm => h a (by simp [hm])

theorem setRunning_preserves_name (m : String) (b : Bool) (c : Container) :
    (if c.name = m then { c with running := b } else c).name = c.name := by
  split <;> rfl

theorem findContainer_setRunning (st : DockerState) (m : String) (b : Bool) (n : String) :
    findContainer (setRunning st m b) n =
      (findContainer st n).map (fun c => if c.name = m then { c with running := b } else c) := by
  unfold findContainer setRunning
  simp only [List.find?_map]
  congr 1
  apply find?_congr_pred
  intro c _
  simp [Function.comp, setRunning_preserves_name]

theorem findContainer_setRunning_isSome (st : DockerState) (m : String) (b : Bool)
    (n : String) :
    (findContainer (setRunning st m b) n).isSome = (findContainer st n).isSome := by
  rw [findContainer_setRunning]
  cases findContainer st n <;> rfl

theorem findContainer_name {st : DockerState} {n : String} {c : Container}
    (h : findContainer st n = some c) : c.name = n := by
  unfold findContainer at h
  simpa using List.find?_some h

theorem findContainer_setRunning_ne {n m : String} (st : DockerState) (b : Bool)
    (h : n ≠ m) : findContainer (setRunning st m b) n = findContainer st n := by
  rw [findContainer_setRunning]
  cases hf : findContainer st n with
  | none => rfl
  | some c =>
    have hc : c.name = n := findContainer_name hf
    simp [hc, h]

theorem findContainer_remove_ne {n m : String} (st : DockerState) (h : n ≠ m) :
    findContainer (removeContainerNamed st m) n = findContainer st n := by
  unfold findContainer removeContainerNamed
  simp only [List.find?_filter]
  apply find?_congr_pred
  intro c _
  by_cases hc : c.name = n
  · simp [hc, fun hh : n = m => h hh]
  · simp [hc]

theorem findContainer_addContainer_ne {n : String} (st : DockerState) (c : Container)
    (h : c.name ≠ n) : findContainer (addContainer st c) n = findContainer st n := by
  unfold findContainer addContainer
  simp only [List.find?_append]
  rw [List.find?_cons_of_neg _ (by simp [h])]
  simp

theorem findContainer_addContainer_isSome (st : DockerState) (m : String) (b : Bool) :
    (findContainer (addContainer st ⟨m, b⟩) m).isSome = true := by
  unfold findContainer addContainer
  simp only [List.find?_append]
  rw [List.find?_cons_of_pos _ (by simp)]
  cases st.containers.find? (fun d => d.name = m) <;> rfl

theorem findContainer_addContainer_of_isSome {st : DockerState} {n : String}
    (c : Container) (h : (findContainer st n).isSome = true) :
    (findContainer (addContainer st c) n).isSome = true := by
  unfold findContainer at h
  unfold findContainer addContainer
  simp only [List.find?_append]
  cases hf : st.containers.find? (fun d => decide (d.name = n)) with
  | some d => rfl
  | none => rw [hf] at h; simp at h

/-! ### Facts about `createAndStart` and `containerPhase` -/

theorem createAndStart_findContainer_ne {n : String} (options : ResolvedOptions)
    (always_start : Bool) (st : DockerState) (h : n ≠ options.name) :
    findContainer (createAndStart options always_start st).1 n = findContainer st n := by
  unfold createAndStart
  split
  · exact findContainer_addContainer_ne st _ (fun hh => h hh.symm)
  · rw [findContainer_setRunning_ne _ _ h]
    exact findContainer_addContainer_ne st _ (fun hh => h hh.symm)

theorem createAndStart_exists (options : ResolvedOptions) (always_start : Bool)
    (st : DockerState) :
    (findContainer (createAndStart options always_start st).1 options.name).isSome = true := by
  unfold createAndStart
  split
  · exact findContainer_addContainer_isSome st options.name false
  · rw [findContainer_setRunning_isSome]
    exact findContainer_addContainer_isSome st options.name false

theorem createAndStart_events {options : ResolvedOptions} {always_start : Bool}
    {st : DockerState} {e : Event} (h : e ∈ (createAndStart options always_start st).2.1) :
    e = Event.createContainer options.name ∨ e = Event.startContainer options.name := by
  unfold createAndStart at h
  split at h
  · simp at h
    exact Or.inl h
  · simpa using h

theorem createAndStart_deferred (options : ResolvedOptions) (st : DockerState)
    (hwd : options.with_devserver = true) :
    (createAndStart options false st).2.1 = [Event.createContainer options.name] := by
  unfold createAndStart
  rw [if_pos (by simp [hwd])]

theorem createAndStart_always (options : ResolvedOptions) (st : DockerState) :
    (createAndStart options true st).2.1 =
      [Event.createContainer options.name, Event.startContainer options.name] := by
  unfold createAndStart
  rw [if_neg (by simp)]

theorem containerPhase_findContainer_ne {n : String} (options : ResolvedOptions)
    (fast always_start : Bool) (st : DockerState) (h : n ≠ options.name) :
    findContainer (containerPhase options fast always_start st).1 n = findContainer st n := by
  cases hf : findContainer st options.name with
  | none =>
    simp only [containerPhase, hf]
    exact createAndStart_findContainer_ne options always_start st h
  | some c =>
    simp only [containerPhase, hf]
    split
    · split
      · rfl
      · exact findContainer_setRunning_ne st true h
    · dsimp only
      rw [createAndStart_findContainer_ne options always_start _ h]
      exact findContainer_remove_ne st h

theorem containerPhase_exists (options : ResolvedOptions) (fast always_start : Bool)
    (st : DockerState) :
    (findContainer (containerPhase options fast always_start st).1 options.name).isSome
      = true := by
  cases hf : findContainer st options.name with
  | none =>
    simp only [containerPhase, hf]
    exact createAndStart_exists options always_start st
  | some c =>
    simp only [containerPhase, hf]
    split
    · split
      · rw [hf]; rfl
      · rw [findContainer_setRunning_isSome, hf]; rfl
    · dsimp only
      exact createAndStart_exists options always_start _

theorem containerPhase_preserves_isSome {n : String} (options : ResolvedOptions)
    (fast always_start : Bool) (st : DockerState)
    (h : (findContainer st n).isSome = true) :
    (findContainer (containerPhase options fast always_start st).1 n).isSome = true := by
  by_cases hn : n = options.name
  · subst hn; exact containerPhase_exists options fast always_start st
  · rw [containerPhase_findContainer_ne options fast always_start st hn]
    exact h

theorem containerPhase_events {options : ResolvedOptions} {fast always_start : Bool}
    {st : DockerState} {e : Event}
    (h : e ∈ (containerPhase options fast always_start st).2.1) :
    e = Event.startContainer options.name ∨ e = Event.stopContainer options.name ∨
    e = Event.removeContainer options.name ∨ e = Event.createContainer options.name := by
  cases hf : findContainer st options.name with
  | none =>
    simp only [containerPhase, hf] at h
    rcases createAndStart_events h with h1 | h1
    · exact Or.inr (Or.inr (Or.inr h1))
    · exact Or.inl h1
  | some c =>
    simp only [containerPhase, hf] at h
    split at h
    · split at h
      · simp at h
      · simp at h
        exact Or.inl h
    · dsimp only at h
      rcases List.mem_cons.mp h with h1 | h1
      · exact Or.inr (Or.inl h1)
      · rcases List.mem_cons.mp h1 with h2 | h2
        · exact Or.inr (Or.inr (Or.inl h2))
        · rcases createAndStart_events h2 with h3 | h3
          · exact Or.inr (Or.inr (Or.inr h3))
          · exact Or.inl h3

theorem containerPhase_reuse {options : ResolvedOptions} {fast : Bool}
    (always_start : Bool) {st : DockerState} {c : Container}
    (hf : findContainer st options.name = some c) (hr : shouldReuse options fast = true) :
    (containerPhase options fast always_start st).2.1 = [] ∨
    (containerPhase options fast always_start st).2.1 = [Event.startContainer options.name] := by
  simp only [containerPhase, hf, hr, if_true]
  split
  · exact Or.inl rfl
  · exact Or.inr rfl

theorem containerPhase_recreate {options : ResolvedOptions} {fast : Bool}
    (always_start : Bool) {st : DockerState} {c : Container}
    (hf : findContainer st options.name = some c) (hr : shouldReuse options fast = false) :
    (containerPhase options fast always_start st).2.1 =
      [Event.stopContainer options.name, Event.removeContainer options.name,
       Event.createContainer options.name, Event.startContainer options.name] := by
  have hwd : options.with_devserver = false := by
    by_contra hh
    simp only [Bool.not_eq_false] at hh
    simp [shouldReuse, hh] at hr
  simp only [containerPhase, hf, hr, createAndStart, hwd]
  simp

theorem containerPhase_deferred_no_start {options : ResolvedOptions} {fast : Bool}
    {st : DockerState} (hwd : options.with_devserver = true) (n : String) :
    Event.startContainer n ∉ (containerPhase options fast false st).2.1 := by
  cases hf : findContainer st options.name with
  | none =>
    simp only [containerPhase, hf]
    rw [createAndStart_deferred options st hwd]
    simp
  | some c =>
    simp only [containerPhase, hf, shouldReuse, hwd]
    simp

theorem containerPhase_always_start (options : ResolvedOptions) (fast : Bool)
    (st : DockerState) :
    Event.startContainer options.name ∈ (containerPhase options fast true st).2.1 := by
  cases hf : findContainer st options.name with
  | none =>
    simp only [containerPhase, hf]
    rw [createAndStart_always]
    simp
  | some c =>
    simp only [containerPhase, hf]
    split
    · simp
    · dsimp only
      rw [createAndStart_always]
      simp

/-! ### Facts about `startResolved` (the post-lookup body of `_start_service`) -/

theorem midState_containers (project : String) (fast : Bool) (options : ResolvedOptions)
    (st : DockerState) : (midState project fast options st).containers = st.containers := by
  unfold midState
  rw [volumePhase_containers, pullPhase_containers]

section StartResolvedLemmas

variable (fmt : List (String × ResolvedOptions) → String → String) (snuba : Bool)
variable (st : DockerState) (name : String)
variable (containers : List (String × ResolvedOptions)) (project : String)
variable (fast always_start : Bool) (options : ResolvedOptions)

theorem startResolved_state :
    (startResolved fmt snuba st name containers project fast always_start options).state =
      (containerPhase options fast always_start (midState project fast options st)).1 := rfl

theorem startResolved_events :
    (startResolved fmt snuba st name containers project fast always_start options).events =
      (pullPhase fast options.pull options.image st).2
      ++ (volumePhase project (pullPhase fast options.pull options.image st).1
            (options.volumes.filter fun kv => !(containsChar kv.1 '/'))).2
      ++ (containerPhase options fast always_start (midState project fast options st)).2.1 :=
  rfl

theorem startResolved_findContainer_ne {n : String} (h : n ≠ options.name) :
    findContainer
        (startResolved fmt snuba st name containers project fast always_start options).state n
      = findContainer st n := by
  rw [startResolved_state, containerPhase_findContainer_ne options fast always_start _ h]
  exact findContainer_congr n (midState_containers project fast options st)

theorem startResolved_exists :
    (findContainer
        (startResolved fmt snuba st name containers project fast always_start options).state
        options.name).isSome = true := by
  rw [startResolved_state]
  exact containerPhase_exists options fast always_start _

theorem startResolved_preserves_isSome {n : String}
    (h : (findContainer st n).isSome = true) :
    (findContainer
        (startResolved fmt snuba st name containers project fast always_start options).state
        n).isSome = true := by
  rw [startResolved_state]
  apply containerPhase_preserves_isSome
  rw [findContainer_congr n (midState_containers project fast options st)]
  exact h

theorem startResolved_event_names {e : Event}
    (h : e ∈ (startResolved fmt snuba st name containers project fast always_start
        options).events) :
    e = Event.pullImage options.image ∨ (∃ m, e = Event.createVolume m) ∨
    e = Event.startContainer options.name ∨ e = Event.stopContainer options.name ∨
    e = Event.removeContainer options.name ∨ e = Event.createContainer options.name := by
  rw [startResolved_events] at h
  rcases List.mem_append.mp h with h1 | h1
  · rcases List.mem_append.mp h1 with h2 | h2
    · exact Or.inl (pullPhase_events h2)
    · exact Or.inr (Or.inl (volumePhase_events h2))
  · rcases containerPhase_events h1 with h3 | h3 | h3 | h3
    · exact Or.inr (Or.inr (Or.inl h3))
    · exact Or.inr (Or.inr (Or.inr (Or.inl h3)))
    · exact Or.inr (Or.inr (Or.inr (Or.inr (Or.inl h3))))
    · exact Or.inr (Or.inr (Or.inr (Or.inr (Or.inr h3))))

theorem startResolved_container_event_ne {n : String} (h : n ≠ options.name) :
    Event.startContainer n ∉ (startResolved fmt snuba st name containers project fast
        always_start options).events ∧
    Event.stopContainer n ∉ (startResolved fmt snuba st name containers project fast
        always_start options).events ∧
    Event.removeContainer n ∉ (startResolved fmt snuba st name containers project fast
        always_start options).events ∧
    Event.createContainer n ∉ (startResolved fmt snuba st name containers project fast
        always_start options).events := by
  refine ⟨fun hm => ?_, fun hm => ?_, fun hm => ?_, fun hm => ?_⟩ <;>
    rcases startResolved_event_names fmt snuba st name containers project fast always_start
      options hm with h1 | ⟨m, h1⟩ | h1 | h1 | h1 | h1 <;>
    simp_all

theorem startResolved_no_start (hwd : options.with_devserver = true) (n : String) :
    Event.startContainer n ∉
      (startResolved fmt snuba st name containers project fast false options).events := by
  intro hm
  rw [startResolved_events] at hm
  rcases List.mem_append.mp hm with h1 | h1
  · rcases List.mem_append.mp h1 with h2 | h2
    · exact absurd (pullPhase_events h2) (by simp)
    · rcases volumePhase_events h2 with ⟨m, h3⟩
      simp at h3
  · exact containerPhase_deferred_no_start hwd n h1

theorem startResolved_start_mem :
    Event.startContainer options.name ∈
      (startResolved fmt snuba st name containers project fast true options).events := by
  rw [startResolved_events]
  exact List.mem_append.mpr (Or.inr (containerPhase_always_start options fast _))

theorem startResolved_reuse_no_churn {c : Container}
    (hf : findContainer st options.name = some c)
    (hr : shouldReuse options fast = true) (n : String) :
    Event.createContainer n ∉ (startResolved fmt snuba st name containers project fast
        always_start options).events ∧
    Event.stopContainer n ∉ (startResolved fmt snuba st name containers project fast
        always_start options).events ∧
    Event.removeContainer n ∉ (startResolved fmt snuba st name containers project fast
        always_start options).events := by
  have hf2 : findContainer (midState project fast options st) options.name = some c := by
    rw [findContainer_congr options.name (midState_containers project fast options st)]
    exact hf
  have hcp := containerPhase_reuse always_start hf2 hr
  refine ⟨fun hm => ?_, fun hm => ?_, fun hm => ?_⟩ <;>
    · rw [startResolved_events] at hm
      rcases List.mem_append.mp hm with h1 | h1
      · rcases List.mem_append.mp h1 with h2 | h2
        · exact absurd (pullPhase_events h2) (by simp)
        · rcases volumePhase_events h2 with ⟨m, h3⟩
          simp at h3
      · rcases hcp with he | he <;> rw [he] at h1 <;> simp at h1

theorem startResolved_recreate {c : Container}
    (hf : findContainer st options.name = some c)
    (hr : shouldReuse options fast = false) :
    ∃ pre,
      (startResolved fmt snuba st name containers project fast always_start options).events =
        pre ++ [Event.stopContainer options.name, Event.removeContainer options.name,
                Event.createContainer options.name, Event.startContainer options.name] ∧
      ∀ e ∈ pre, e = Event.pullImage options.image ∨ ∃ m, e = Event.createVolume m := by
  have hf2 : findContainer (midState project fast options st) options.name = some c := by
    rw [findContainer_congr options.name (midState_containers project fast options st)]
    exact hf
  refine ⟨(pullPhase fast options.pull options.image st).2
      ++ (volumePhase project (pullPhase fast options.pull options.image st).1
            (options.volumes.filter fun kv => !(containsChar kv.1 '/'))).2, ?_, ?_⟩
  · rw [startResolved_events, containerPhase_recreate always_start hf2 hr]
  · intro e he
    rcases List.mem_append.mp he with h2 | h2
    · exact Or.inl (pullPhase_events h2)
    · exact Or.inr (volumePhase_events h2)

end StartResolvedLemmas

/-! ### Facts about `_prepare_containers` and registry lookup -/

theorem resolveService_name (project name : String) (o : ServiceOptions) :
    (resolveService project name o).name = project ++ "_" ++ name := rfl

theorem project_name_inj {project u s : String}
    (h : project ++ "_" ++ u = project ++ "_" ++ s) : u = s := by
  apply String.ext
  have h2 := congrArg String.data h
  simp only [String.data_append] at h2
  exact List.append_cancel_left h2

theorem prepare_cons (project : String) (e : String × ServiceOptions)
    (rest : List (String × ServiceOptions)) :
    _prepare_containers project (e :: rest) =
      if e.2.only_if then
        (e.1, resolveService project e.1 e.2) :: _prepare_containers project rest
      else _prepare_containers project rest := by
  unfold _prepare_containers
  by_cases ho : e.2.only_if <;> simp [List.filterMap_cons, ho]

theorem lookup_prepare_name {project : String} {registry : List (String × ServiceOptions)}
    {u : String} {opts : ResolvedOptions}
    (h : lookupService (_prepare_containers project registry) u = some opts) :
    opts.name = project ++ "_" ++ u := by
  induction registry with
  | nil => simp [_prepare_containers, lookupService] at h
  | cons e rest ih =>
    rw [prepare_cons] at h
    by_cases ho : e.2.only_if
    · rw [if_pos ho] at h
      unfold lookupService at h
      by_cases he : e.1 = u
      · rw [if_pos he] at h
        cases h
        rw [resolveService_name, he]
      · rw [if_neg he] at h
        exact ih h
    · rw [if_neg ho] at h
      exact ih h

theorem lookup_prepare_of_mem {project s : String} {o : ServiceOptions}
    {registry : List (String × ServiceOptions)}
    (hmem : (s, o) ∈ registry) (hnodup : (registry.map Prod.fst).Nodup)
    (ho : o.only_if = true) :
    lookupService (_prepare_containers project registry) s =
      some (resolveService project s o) := by
  induction registry with
  | nil => simp at hmem
  | cons e rest ih =>
    rw [prepare_cons]
    rcases List.mem_cons.mp hmem with he | he
    · subst he
      dsimp only
      rw [if_pos ho]
      simp [lookupService]
    · have hs : s ∈ rest.map Prod.fst := List.mem_map_of_mem Prod.fst he
      have hnd := List.nodup_cons.mp
        (show (e.1 :: rest.map Prod.fst).Nodup from hnodup)
      have hne : e.1 ≠ s := fun hh => hnd.1 (hh ▸ hs)
      have ihr := ih he hnd.2
      by_cases ho2 : e.2.only_if
      · rw [if_pos ho2]
        unfold lookupService
        rw [if_neg hne]
        exact ihr
      · rw [if_neg ho2]
        exact ihr

/-! ### Facts about the `up` loop -/

theorem noChurn_append {nm : String} {a b : List Event}
    (ha : noChurn nm a) (hb : noChurn nm b) : noChurn nm (a ++ b) := by
  unfold noChurn at *
  simp only [List.mem_append]
  refine ⟨fun h => ?_, fun h => ?_, fun h => ?_⟩ <;> rcases h with h | h
  · exact ha.1 h
  · exact hb.1 h
  · exact ha.2.1 h
  · exact hb.2.1 h
  · exact ha.2.2 h
  · exact hb.2.2 h

theorem noChurn_nil (nm : String) : noChurn nm [] := by
  unfold noChurn
  simp

section UpLoopLemmas

variable (fmt : List (String × ResolvedOptions) → String → String) (snuba : Bool)
variable (project : String) (containers : List (String × ResolvedOptions))
variable (exclude : List String) (fast : Bool)

theorem upServices_cons_skip_ex (e : String × ServiceOptions)
    (rest : List (String × ServiceOptions)) (st : DockerState)
    (hex : exclude.contains e.1 = true) :
    upServices fmt snuba project containers exclude fast st (e :: rest) =
      upServices fmt snuba project containers exclude fast st rest := by
  simp only [upServices]
  rw [if_pos hex]

theorem upServices_cons_skip_none (e : String × ServiceOptions)
    (rest : List (String × ServiceOptions)) (st : DockerState)
    (hex : exclude.contains e.1 = false)
    (hl : lookupService containers e.1 = none) :
    upServices fmt snuba project containers exclude fast st (e :: rest) =
      upServices fmt snuba project containers exclude fast st rest := by
  simp only [upServices, _start_service, hl]
  rw [if_neg (by rw [hex]; simp)]

theorem upServices_cons_run (e : String × ServiceOptions)
    (rest : List (String × ServiceOptions)) (st : DockerState) {opts : ResolvedOptions}
    (hex : exclude.contains e.1 = false)
    (hl : lookupService containers e.1 = some opts) :
    upServices fmt snuba project containers exclude fast st (e :: rest) =
      ((upServices fmt snuba project containers exclude fast
          (startResolved fmt snuba st e.1 containers project fast false opts).state rest).1,
       (startResolved fmt snuba st e.1 containers project fast false opts).events ++
         (upServices fmt snuba project containers exclude fast
           (startResolved fmt snuba st e.1 containers project fast false opts).state
           rest).2) := by
  simp only [upServices, _start_service, hl]
  rw [if_neg (by rw [hex]; simp)]

theorem upServices_preserves_isSome {n : String}
    (registry : List (String × ServiceOptions)) :
    ∀ (st : DockerState), (findContainer st n).isSome = true →
    (findContainer (upServices fmt snuba project containers exclude fast st registry).1
      n).isSome = true := by
  induction registry with
  | nil => intro st h; exact h
  | cons e rest ih =>
    intro st h
    cases hex : exclude.contains e.1 with
    | true =>
      rw [upServices_cons_skip_ex fmt snuba project containers exclude fast e rest st hex]
      exact ih st h
    | false =>
      cases hl : lookupService containers e.1 with
      | none =>
        rw [upServices_cons_skip_none fmt snuba project containers exclude fast e rest st
          hex hl]
        exact ih st h
      | some opts =>
        rw [upServices_cons_run fmt snuba project containers exclude fast e rest st hex hl]
        exact ih _ (startResolved_preserves_isSome fmt snuba st e.1 containers project
          fast false opts h)

theorem upServices_exists {s : String} {opts : ResolvedOptions}
    (registry : List (String × ServiceOptions)) (o : ServiceOptions) :
    ∀ (st : DockerState), (s, o) ∈ registry → exclude.contains s = false →
    lookupService containers s = some opts →
    (findContainer (upServices fmt snuba project containers exclude fast st registry).1
      opts.name).isSome = true := by
  induction registry with
  | nil => intro st hmem; simp at hmem
  | cons e rest ih =>
    intro st hmem hex hl
    rcases List.mem_cons.mp hmem with he | he
    · have he1 : e.1 = s := by rw [← he]
      rw [upServices_cons_run fmt snuba project containers exclude fast e rest st
        (by rw [he1]; exact hex) (by rw [he1]; exact hl)]
      exact upServices_preserves_isSome fmt snuba project containers exclude fast rest _
        (startResolved_exists fmt snuba st e.1 containers project fast false opts)
    · cases hexx : exclude.contains e.1 with
      | true =>
        rw [upServices_cons_skip_ex fmt snuba project containers exclude fast e rest st
          hexx]
        exact ih _ he hex hl
      | false =>
        cases hl2 : lookupService containers e.1 with
        | none =>
          rw [upServices_cons_skip_none fmt snuba project containers exclude fast e rest
            st hexx hl2]
          exact ih _ he hex hl
        | some opts2 =>
          rw [upServices_cons_run fmt snuba project containers exclude fast e rest st
            hexx hl2]
          exact ih _ he hex hl

theorem upServices_no_start {nm : String}
    (hall : ∀ u opts_u, lookupService containers u = some opts_u → opts_u.name = nm →
      opts_u.with_devserver = true)
    (registry : List (String × ServiceOptions)) :
    ∀ (st : DockerState),
    Event.startContainer nm ∉
      (upServices fmt snuba project containers exclude fast st registry).2 := by
  induction registry with
  | nil => intro st; simp [upServices]
  | cons e rest ih =>
    intro st
    cases hex : exclude.contains e.1 with
    | true =>
      rw [upServices_cons_skip_ex fmt snuba project containers exclude fast e rest st hex]
      exact ih st
    | false =>
      cases hl : lookupService containers e.1 with
      | none =>
        rw [upServices_cons_skip_none fmt snuba project containers exclude fast e rest st
          hex hl]
        exact ih st
      | some opts =>
        rw [upServices_cons_run fmt snuba project containers exclude fast e rest st hex hl]
        intro hm
        rcases List.mem_append.mp hm with h1 | h1
        · by_cases hnm : nm = opts.name
          · exact startResolved_no_start fmt snuba st e.1 containers project fast opts
              (hall e.1 opts hl hnm.symm) nm h1
          · exact (startResolved_container_event_ne fmt snuba st e.1 containers project
              fast false opts hnm).1 h1
        · exact ih _ h1

theorem upServices_no_churn {nm : String}
    (hall : ∀ u opts_u, lookupService containers u = some opts_u → opts_u.name = nm →
      opts_u.pull = false)
    (registry : List (String × ServiceOptions)) :
    ∀ (st : DockerState), (findContainer st nm).isSome = true →
    noChurn nm (upServices fmt snuba project containers exclude fast st registry).2 := by
  induction registry with
  | nil => intro st _; exact noChurn_nil nm
  | cons e rest ih =>
    intro st h
    cases hex : exclude.contains e.1 with
    | true =>
      rw [upServices_cons_skip_ex fmt snuba project containers exclude fast e rest st hex]
      exact ih st h
    | false =>
      cases hl : lookupService containers e.1 with
      | none =>
        rw [upServices_cons_skip_none fmt snuba project containers exclude fast e rest st
          hex hl]
        exact ih st h
      | some opts =>
        rw [upServices_cons_run fmt snuba project containers exclude fast e rest st hex hl]
        have hrest := ih ((startResolved fmt snuba st e.1 containers project fast false
          opts).state)
          (startResolved_preserves_isSome fmt snuba st e.1 containers project fast false
            opts h)
        have hhead : noChurn nm (startResolved fmt snuba st e.1 containers project fast
            false opts).events := by
          by_cases hnm : nm = opts.name
          · subst hnm
            have hpull := hall e.1 opts hl rfl
            rcases Option.isSome_iff_exists.mp h with ⟨c, hc⟩
            have hreuse : shouldReuse opts fast = true := by
              unfold shouldReuse
              split
              · rfl
              · simp [hpull]
            exact startResolved_reuse_no_churn fmt snuba st e.1 containers project fast
              false opts hc hreuse opts.name
          · have h3 := startResolved_container_event_ne fmt snuba st e.1 containers
              project fast false opts hnm
            exact ⟨h3.2.2.2, h3.2.1, h3.2.2.1⟩
        exact noChurn_append hhead hrest

end UpLoopLemmas

/-! ### Additional phase and command lemmas -/

theorem pullPhase_fast (pull : Bool) (image : String) (st : DockerState) :
    pullPhase true pull image st = (st, []) := rfl

theorem pullPhase_mem_iff (pull : Bool) (image : String) (st : DockerState) :
    Event.pullImage image ∈ (pullPhase false pull image st).2 ↔
      (pull = true ∨ st.images.contains image = false) := by
  unfold pullPhase
  cases pull <;> cases hc : st.images.contains image <;> simp [hc]

theorem lookup_prepare_mem {project : String} {registry : List (String × ServiceOptions)}
    {u : String} {opts : ResolvedOptions}
    (h : lookupService (_prepare_containers project registry) u = some opts) :
    ∃ o : ServiceOptions, (u, o) ∈ registry ∧ opts = resolveService project u o := by
  induction registry with
  | nil => simp [_prepare_containers, lookupService] at h
  | cons e rest ih =>
    rw [prepare_cons] at h
    by_cases ho : e.2.only_if
    · rw [if_pos ho] at h
      unfold lookupService at h
      by_cases he : e.1 = u
      · rw [if_pos he] at h
        refine ⟨e.2, ?_, ?_⟩
        · rw [← he]
          simp
        · rw [← he]
          exact (Option.some.inj h).symm
      · rw [if_neg he] at h
        rcases ih h with ⟨o, hmem, heq⟩
        exact ⟨o, List.mem_cons_of_mem e hmem, heq⟩
    · rw [if_neg ho] at h
      rcases ih h with ⟨o, hmem, heq⟩
      exact ⟨o, List.mem_cons_of_mem e hmem, heq⟩

theorem nameMatches_nil (project : String) (n : String) :
    nameMatches project [] n = startsWith n (project ++ "_") := by
  simp [nameMatches]

theorem nameMatches_false {project : String} {service : List String} {n : String}
    (h : startsWith n (project ++ "_") = false) : nameMatches project service n = false := by
  simp [nameMatches, h]

theorem rmContainerEvents_mem {l : List Container} {e : Event}
    (h : e ∈ rmContainerEvents l) :
    ∃ c ∈ l, e = Event.stopContainer c.name ∨ e = Event.removeContainer c.name := by
  induction l with
  | nil => simp [rmContainerEvents] at h
  | cons c rest ih =>
    unfold rmContainerEvents at h
    rcases List.mem_cons.mp h with h1 | h1
    · exact ⟨c, by simp, Or.inl h1⟩
    · rcases List.mem_cons.mp h1 with h2 | h2
      · exact ⟨c, by simp, Or.inr h2⟩
      · rcases ih h2 with ⟨c2, hc2, hor⟩
        exact ⟨c2, by simp [hc2], hor⟩

theorem rmContainerEvents_stop_mem {l : List Container} {c : Container} (h : c ∈ l) :
    Event.stopContainer c.name ∈ rmContainerEvents l := by
  induction l with
  | nil => simp at h
  | cons d rest ih =>
    unfold rmContainerEvents
    rcases List.mem_cons.mp h with h1 | h1
    · subst h1
      simp
    · simp [ih h1]

theorem rmContainerEvents_remove_mem {l : List Container} {c : Container} (h : c ∈ l) :
    Event.removeContainer c.name ∈ rmContainerEvents l := by
  induction l with
  | nil => simp at h
  | cons d rest ih =>
    unfold rmContainerEvents
    rcases List.mem_cons.mp h with h1 | h1
    · subst h1
      simp
    · simp [ih h1]

theorem up_eq (fmt : List (String × ResolvedOptions) → String → String) (snuba : Bool)
    (st : DockerState) (project : String) (registry : List (String × ServiceOptions))
    (exclude : List String) (fast : Bool) :
    up fmt snuba st project registry exclude fast =
      ((upServices fmt snuba project (_prepare_containers project registry) exclude fast
          (if st.networks.contains project then st else addNetwork st project) registry).1,
       (if st.networks.contains project then ([] : List Event)
         else [Event.createNetwork project]) ++
         (upServices fmt snuba project (_prepare_containers project registry) exclude fast
           (if st.networks.contains project then st else addNetwork st project)
           registry).2) := rfl

theorem ifNetwork_containers (st : DockerState) (project : String) :
    (if st.networks.contains project then st else addNetwork st project).containers =
      st.containers := by
  split
  · rfl
  · exact addNetwork_containers st project

/-! ### Claim theorems -/

/-- C4: for every resolved service, when fast mode is active the reconciler
issues no image pull; when fast mode is not active it pulls the image exactly
when the service's pull flag is set or the image is absent locally (so a first
run pulls regardless of the flag), and it never pulls any other image. -/
theorem c4_pull_policy
    (fmt : List (String × ResolvedOptions) → String → String) (snuba : Bool)
    (st : DockerState) (name : String) (containers : List (String × ResolvedOptions))
    (project : String) (fast always_start : Bool) (options : ResolvedOptions)
    (r : StartResult)
    (hlook : lookupService containers name = some options)
    (hrun : _start_service fmt snuba st name containers project fast always_start = some r) :
    (fast = true → ∀ i, Event.pullImage i ∉ r.events) ∧
    (fast = false →
      ((Event.pullImage options.image ∈ r.events) ↔
        (options.pull = true ∨ st.images.contains options.image = false)) ∧
      (∀ i, i ≠ options.image → Event.pullImage i ∉ r.events)) := by
  have hr : r = startResolved fmt snuba st name containers project fast always_start
      options := by
    unfold _start_service at hrun
    rw [hlook] at hrun
    exact (Option.some.inj hrun).symm
  subst hr
  constructor
  · intro hf i hm
    subst hf
    rw [startResolved_events] at hm
    rcases List.mem_append.mp hm with h1 | h1
    · rcases List.mem_append.mp h1 with h2 | h2
      · rw [pullPhase_fast] at h2
        simp at h2
      · rcases volumePhase_events h2 with ⟨m, hme⟩
        simp at hme
    · rcases containerPhase_events h1 with h3 | h3 | h3 | h3 <;> simp at h3
  · intro hf
    subst hf
    refine ⟨⟨?_, ?_⟩, ?_⟩
    · intro hm
      rw [startResolved_events] at hm
      rcases List.mem_append.mp hm with h1 | h1
      · rcases List.mem_append.mp h1 with h2 | h2
        · exact (pullPhase_mem_iff options.pull options.image st).mp h2
        · rcases volumePhase_events h2 with ⟨m, hme⟩
          simp at hme
      · rcases containerPhase_events h1 with h3 | h3 | h3 | h3 <;> simp at h3
    · intro hc
      rw [startResolved_events]
      exact List.mem_append.mpr (Or.inl (List.mem_append.mpr (Or.inl
        ((pullPhase_mem_iff options.pull options.image st).mpr hc))))
    · intro i hi hm
      rw [startResolved_events] at hm
      rcases List.mem_append.mp hm with h1 | h1
      · rcases List.mem_append.mp h1 with h2 | h2
        · have hpe := pullPhase_events h2
          injection hpe with hh
          exact hi hh
        · rcases volumePhase_events h2 with ⟨m, hme⟩
          simp at hme
      · rcases containerPhase_events h1 with h3 | h3 | h3 | h3 <;> simp at h3

/-- Witness for C4: on a fresh engine with no local image and no pull flag,
the first run pulls the image. -/
theorem c4_witness : Event.pullImage plainOptions.image ∈ c4Result.events :=
  ((c4_pull_policy idFmt false emptyState "db" plainContainers "sentry" false false
      plainOptions c4Result (by decide) (by decide)).2 rfl).1.mpr (Or.inr (by decide))

/-- C5: the option resolver rewrites every bare port value to the pair
(loopback, port) and keeps explicit pairs unchanged; every resolved binding
arises in one of these two ways, and the ports of every service resolved by
`_prepare_containers` are exactly `ensure_interface` of its registry ports. -/
theorem c5_port_normalization (ports : List (Nat × PortVal)) :
    (∀ k p, (k, PortVal.bare p) ∈ ports →
      (k, ("127.0.0.1", p)) ∈ ensure_interface ports) ∧
    (∀ k host p, (k, PortVal.iface host p) ∈ ports →
      (k, (host, p)) ∈ ensure_interface ports) ∧
    (∀ kv ∈ ensure_interface ports,
      ((kv.1, PortVal.bare kv.2.2) ∈ ports ∧ kv.2.1 = "127.0.0.1") ∨
        (kv.1, PortVal.iface kv.2.1 kv.2.2) ∈ ports) ∧
    (∀ (project : String) (registry : List (String × ServiceOptions)) (n : String)
        (ro : ResolvedOptions),
      lookupService (_prepare_containers project registry) n = some ro →
      ∃ o : ServiceOptions, (n, o) ∈ registry ∧ ro.ports = ensure_interface o.ports) := by
  refine ⟨?_, ?_, ?_, ?_⟩
  · intro k p h
    exact List.mem_map_of_mem _ h
  · intro k host p h
    exact List.mem_map_of_mem _ h
  · intro kv hkv
    rcases List.mem_map.mp hkv with ⟨⟨k2, v2⟩, hab, heq⟩
    cases v2 with
    | bare p =>
      subst heq
      exact Or.inl ⟨hab, rfl⟩
    | iface host p =>
      subst heq
      exact Or.inr hab
  · intro project registry n ro h
    rcases lookup_prepare_mem h with ⟨o, hmem, heq⟩
    exact ⟨o, hmem, by rw [heq]; rfl⟩

/-- Witness for C5: a bare port resolves to a loopback binding. -/
theorem c5_witness :
    ((5432 : Nat), (("127.0.0.1" : String), (5432 : Nat))) ∈
      ensure_interface [(5432, PortVal.bare 5432)] :=
  (c5_port_normalization [(5432, PortVal.bare 5432)]).1 5432 5432 (by decide)

/-- C6: a declined confirmation aborts `rm` before any engine call: the engine
state is returned unchanged and the call trace is empty. -/
theorem c6_rm_declined (st : DockerState) (project : String) (service : List String) :
    rm st project service false = (st, []) := rfl

/-- C1: for every resolved service whose container already exists, the
reconciler reuses the existing container (no container create, stop or remove
call) if and only if the service has no forced pull flag, or it is marked
with_devserver, or fast mode is active; in every other case it stops the
existing container, removes it, and creates a fresh one before starting it
(the only other calls in the trace are image pulls and volume creations). -/
theorem c1_reuse_vs_recreate
    (fmt : List (String × ResolvedOptions) → String → String) (snuba : Bool)
    (st : DockerState) (name : String) (containers : List (String × ResolvedOptions))
    (project : String) (fast always_start : Bool) (options : ResolvedOptions)
    (r : StartResult) (c : Container)
    (hlook : lookupService containers name = some options)
    (hrun : _start_service fmt snuba st name containers project fast always_start = some r)
    (hfound : findContainer st options.name = some c) :
    ((options.pull = false ∨ options.with_devserver = true ∨ fast = true) →
      Event.createContainer options.name ∉ r.events ∧
      Event.stopContainer options.name ∉ r.events ∧
      Event.removeContainer options.name ∉ r.events) ∧
    (¬(options.pull = false ∨ options.with_devserver = true ∨ fast = true) →
      ∃ pre, r.events = pre ++
          [Event.stopContainer options.name, Event.removeContainer options.name,
           Event.createContainer options.name, Event.startContainer options.name] ∧
        ∀ e ∈ pre, e = Event.pullImage options.image ∨ ∃ m, e = Event.createVolume m) := by
  have hr : r = startResolved fmt snuba st name containers project fast always_start
      options := by
    unfold _start_service at hrun
    rw [hlook] at hrun
    exact (Option.some.inj hrun).symm
  subst hr
  constructor
  · intro hcond
    have hreuse : shouldReuse options fast = true := by
      unfold shouldReuse
      split
      · rfl
      · rename_i hh
        rcases hcond with h | h | h
        · simp [h]
        · exact absurd (by simp [h]) hh
        · exact absurd (by simp [h]) hh
    exact startResolved_reuse_no_churn fmt snuba st name containers project fast
      always_start options hfound hreuse options.name
  · intro hcond
    have hpull : options.pull = true := by
      by_contra hh
      exact hcond (Or.inl (by simpa using hh))
    have hwd : options.with_devserver = false := by
      by_contra hh
      exact hcond (Or.inr (Or.inl (by simpa using hh)))
    have hfast : fast = false := by
      by_contra hh
      exact hcond (Or.inr (Or.inr (by simpa using hh)))
    have hreuse : shouldReuse options fast = false := by
      unfold shouldReuse
      rw [hwd, hfast]
      simp [hpull]
    exact startResolved_recreate fmt snuba st name containers project fast always_start
      options hfound hreuse

/-- Witness for C1: with no pull flag the existing container is reused. -/
theorem c1_witness :
    Event.createContainer plainOptions.name ∉ c1Result.events ∧
    Event.stopContainer plainOptions.name ∉ c1Result.events ∧
    Event.removeContainer plainOptions.name ∉ c1Result.events :=
  (c1_reuse_vs_recreate idFmt false existingState "db" plainContainers "sentry" false
      false plainOptions c1Result ⟨"sentry_db", false⟩ (by decide) (by decide)
      (by decide)).1 (Or.inl (by decide))

theorem down_events_mem (st : DockerState) (project : String) (service : List String)
    (n : String) :
    Event.stopContainer n ∈ (down st project service).2 ↔
      (∃ c ∈ st.containers, c.name = n) ∧ nameMatches project service n = true := by
  unfold down
  simp only [List.mem_map, List.mem_filter]
  constructor
  · rintro ⟨c, ⟨hc1, hc2⟩, he⟩
    injection he with he2
    exact ⟨⟨c, hc1, he2⟩, he2 ▸ hc2⟩
  · rintro ⟨⟨c, hc1, hc2⟩, hm⟩
    exact ⟨c, ⟨hc1, hc2 ▸ hm⟩, by rw [hc2]⟩

theorem down_events_only (st : DockerState) (project : String) (service : List String)
    {e : Event} (h : e ∈ (down st project service).2) :
    ∃ m, e = Event.stopContainer m := by
  unfold down at h
  rcases List.mem_map.mp h with ⟨c, _, he⟩
  exact ⟨c.name, he.symm⟩

theorem rm_events_eq (st : DockerState) (project : String) (service : List String) :
    (rm st project service true).2 =
      rmContainerEvents
          (st.containers.filter fun c => nameMatches project service c.name)
        ++ (st.volumes.filter fun v => nameMatches project service v).map
            Event.removeVolume
        ++ (if service.isEmpty && st.networks.contains project then
              [Event.removeNetwork project] else []) := rfl

theorem rm_state_containers (st : DockerState) (project : String) (service : List String) :
    (rm st project service true).1.containers =
      st.containers.filter fun c => !(nameMatches project service c.name) := by
  unfold rm
  rw [if_neg (by decide)]
  dsimp only
  split <;> rfl

theorem rm_state_volumes (st : DockerState) (project : String) (service : List String) :
    (rm st project service true).1.volumes =
      st.volumes.filter fun v => !(nameMatches project service v) := by
  unfold rm
  rw [if_neg (by decide)]
  dsimp only
  split <;> rfl

theorem rm_state_networks_nil (st : DockerState) (project : String) :
    (rm st project [] true).1.networks = st.networks.filter fun n => n ≠ project := rfl

theorem rm_events_mem {st : DockerState} {project : String} {service : List String}
    {e : Event} (h : e ∈ (rm st project service true).2) :
    (∃ c ∈ st.containers, nameMatches project service c.name = true ∧
      (e = Event.stopContainer c.name ∨ e = Event.removeContainer c.name)) ∨
    (∃ v ∈ st.volumes, nameMatches project service v = true ∧ e = Event.removeVolume v) ∨
    (e = Event.removeNetwork project ∧ service.isEmpty = true) := by
  rw [rm_events_eq] at h
  rcases List.mem_append.mp h with h1 | h1
  · rcases List.mem_append.mp h1 with h2 | h2
    · rcases rmContainerEvents_mem h2 with ⟨c, hc, hor⟩
      rcases List.mem_filter.mp hc with ⟨hc1, hc2⟩
      exact Or.inl ⟨c, hc1, hc2, hor⟩
    · rcases List.mem_map.mp h2 with ⟨v, hv, he⟩
      rcases List.mem_filter.mp hv with ⟨hv1, hv2⟩
      exact Or.inr (Or.inl ⟨v, hv1, hv2, he.symm⟩)
  · split at h1
    · rename_i hcond
      rcases List.mem_cons.mp h1 with h2 | h2
      · simp only [Bool.and_eq_true] at hcond
        exact Or.inr (Or.inr ⟨h2, hcond.1⟩)
      · simp at h2
    · simp at h1

/-- C8: `down` with no service arguments stops exactly the containers whose
name starts with the project prefix; with service arguments it stops exactly
those whose name both has the prefix and, with the prefix stripped, is one of
the given service names. -/
theorem c8_down_exact (st : DockerState) (project : String) (service : List String)
    (n : String) :
    (service = [] →
      (Event.stopContainer n ∈ (down st project service).2 ↔
        ∃ c ∈ st.containers, c.name = n ∧ startsWith n (project ++ "_") = true)) ∧
    (service ≠ [] →
      (Event.stopContainer n ∈ (down st project service).2 ↔
        ∃ c ∈ st.containers, c.name = n ∧ startsWith n (project ++ "_") = true ∧
          n.drop (project ++ "_").length ∈ service)) := by
  constructor
  · intro hs
    subst hs
    rw [down_events_mem]
    constructor
    · rintro ⟨⟨c, hc, hcn⟩, hm⟩
      rw [nameMatches_nil] at hm
      exact ⟨c, hc, hcn, hm⟩
    · rintro ⟨c, hc, hcn, hm⟩
      exact ⟨⟨c, hc, hcn⟩, by rw [nameMatches_nil]; exact hm⟩
  · intro hs
    have hemp : service.isEmpty = false := by
      cases service
      · exact absurd rfl hs
      · rfl
    rw [down_events_mem]
    constructor
    · rintro ⟨⟨c, hc, hcn⟩, hm⟩
      unfold nameMatches at hm
      rw [hemp] at hm
      simp only [Bool.false_or, Bool.and_eq_true] at hm
      exact ⟨c, hc, hcn, hm.1, by simpa using hm.2⟩
    · rintro ⟨c, hc, hcn, hm1, hm2⟩
      refine ⟨⟨c, hc, hcn⟩, ?_⟩
      unfold nameMatches
      rw [hemp]
      simp only [Bool.false_or, Bool.and_eq_true]
      exact ⟨hm1, by simpa using hm2⟩

/-- Witness for C8: `down` with no arguments stops a project-prefixed
container. -/
theorem c8_witness : Event.stopContainer "sentry_db" ∈ (down c8State "sentry" []).2 :=
  ((c8_down_exact c8State "sentry" [] "sentry_db").1 rfl).mpr
    ⟨⟨"sentry_db", true⟩, by decide, by decide, by decide⟩

/-- Counterexample to C10: for the distinct projects P = "sentry" and
Q = "sentry_x", `down` for P stops Q's container "sentry_x_db", because
project membership is decided by a bare name-prefix check and Q's namespace
extends P's prefix. -/
theorem c10_counterexample :
    ("sentry_x" : String) ≠ "sentry" ∧
    Event.stopContainer ("sentry_x" ++ "_" ++ "db") ∈ (down c10State "sentry" []).2 := by
  decide

/-- C10 amended: for distinct projects P and Q, `down` and `rm` for P never
stop or remove a container or volume of Q, and never remove Q's network,
provided Q's namespaced name does not itself begin with P's prefix (project
namespaces built by extending another project's name with an underscore are
not isolated). -/
theorem c10_isolation (st : DockerState) (p q svc : String) (service : List String)
    (confirmed : Bool) (hq : q ≠ p)
    (hnp : startsWith (q ++ "_" ++ svc) (p ++ "_") = false) :
    Event.stopContainer (q ++ "_" ++ svc) ∉ (down st p service).2 ∧
    Event.stopContainer (q ++ "_" ++ svc) ∉ (rm st p service confirmed).2 ∧
    Event.removeContainer (q ++ "_" ++ svc) ∉ (rm st p service confirmed).2 ∧
    Event.removeVolume (q ++ "_" ++ svc) ∉ (rm st p service confirmed).2 ∧
    Event.removeNetwork q ∉ (rm st p service confirmed).2 ∧
    Event.removeNetwork q ∉ (down st p service).2 := by
  have hfalse : nameMatches p service (q ++ "_" ++ svc) = false := nameMatches_false hnp
  cases confirmed with
  | false =>
    refine ⟨?_, by simp [rm], by simp [rm], by simp [rm], by simp [rm], ?_⟩
    · intro hm
      rcases (down_events_mem st p service (q ++ "_" ++ svc)).mp hm with ⟨_, hmat⟩
      rw [hfalse] at hmat
      cases hmat
    · intro hm
      rcases down_events_only st p service hm with ⟨m, hme⟩
      cases hme
  | true =>
    refine ⟨?_, ?_, ?_, ?_, ?_, ?_⟩
    · intro hm
      rcases (down_events_mem st p service (q ++ "_" ++ svc)).mp hm with ⟨_, hmat⟩
      rw [hfalse] at hmat
      cases hmat
    · intro hm
      rcases rm_events_mem hm with ⟨c, _, hmat, hor⟩ | ⟨v, _, _, he⟩ | ⟨he, _⟩
      · rcases hor with he | he
        · injection he with he2
          rw [he2] at hfalse
          rw [hfalse] at hmat
          cases hmat
        · cases he
      · cases he
      · cases he
    · intro hm
      rcases rm_events_mem hm with ⟨c, _, hmat, hor⟩ | ⟨v, _, _, he⟩ | ⟨he, _⟩
      · rcases hor with he | he
        · cases he
        · injection he with he2
          rw [he2] at hfalse
          rw [hfalse] at hmat
          cases hmat
      · cases he
      · cases he
    · intro hm
      rcases rm_events_mem hm with ⟨c, _, _, hor⟩ | ⟨v, _, hmat, he⟩ | ⟨he, _⟩
      · rcases hor with he | he <;> cases he
      · injection he with he2
        rw [← he2] at hmat
        rw [hfalse] at hmat
        cases hmat
      · cases he
    · intro hm
      rcases rm_events_mem hm with ⟨c, _, _, hor⟩ | ⟨v, _, _, he⟩ | ⟨he, _⟩
      · rcases hor with he | he <;> cases he
      · cases he
      · injection he with he2
        exact hq he2
    · intro hm
      rcases down_events_only st p service hm with ⟨m, hme⟩
      cases hme

/-- Witness for C10 amended: `down` for project "sentry" does not stop the
container "other_db" of project "other". -/
theorem c10_witness :
    Event.stopContainer ("other" ++ "_" ++ "db") ∉ (down c10wState "sentry" []).2 :=
  (c10_isolation c10wState "sentry" "other" "db" [] true (by decide) (by decide)).1

/-- C7: when `rm` is confirmed and given no service arguments it stops and
removes every container whose name starts with the project prefix (afterwards
no project-prefixed container remains), removes every project-prefixed volume,
and removes the project network; when service arguments are given, no network
removal call is ever issued. -/
theorem c7_rm_accepted (st : DockerState) (project : String) (service : List String) :
    ((∀ c ∈ st.containers, startsWith c.name (project ++ "_") = true →
        Event.stopContainer c.name ∈ (rm st project [] true).2 ∧
        Event.removeContainer c.name ∈ (rm st project [] true).2) ∧
     (∀ c ∈ (rm st project [] true).1.containers,
        startsWith c.name (project ++ "_") = false) ∧
     (∀ v ∈ st.volumes, startsWith v (project ++ "_") = true →
        Event.removeVolume v ∈ (rm st project [] true).2) ∧
     (∀ v ∈ (rm st project [] true).1.volumes,
        startsWith v (project ++ "_") = false) ∧
     (st.networks.contains project = true →
        Event.removeNetwork project ∈ (rm st project [] true).2 ∧
        project ∉ (rm st project [] true).1.networks)) ∧
    (service ≠ [] → ∀ nk, Event.removeNetwork nk ∉ (rm st project service true).2) := by
  constructor
  · refine ⟨?_, ?_, ?_, ?_, ?_⟩
    · intro c hc hsw
      have hcf : c ∈ st.containers.filter fun c2 => nameMatches project [] c2.name :=
        List.mem_filter.mpr ⟨hc, by rw [nameMatches_nil]; exact hsw⟩
      rw [rm_events_eq]
      exact ⟨List.mem_append.mpr (Or.inl (List.mem_append.mpr (Or.inl
              (rmContainerEvents_stop_mem hcf)))),
             List.mem_append.mpr (Or.inl (List.mem_append.mpr (Or.inl
              (rmContainerEvents_remove_mem hcf))))⟩
    · intro c hc
      rw [rm_state_containers] at hc
      have h2 := (List.mem_filter.mp hc).2
      rw [nameMatches_nil] at h2
      simpa using h2
    · intro v hv hsw
      have hvf : v ∈ st.volumes.filter fun v2 => nameMatches project [] v2 :=
        List.mem_filter.mpr ⟨hv, by rw [nameMatches_nil]; exact hsw⟩
      rw [rm_events_eq]
      exact List.mem_append.mpr (Or.inl (List.mem_append.mpr (Or.inr
        (List.mem_map_of_mem Event.removeVolume hvf))))
    · intro v hv
      rw [rm_state_volumes] at hv
      have h2 := (List.mem_filter.mp hv).2
      rw [nameMatches_nil] at h2
      simpa using h2
    · intro hnet
      constructor
      · rw [rm_events_eq]
        refine List.mem_append.mpr (Or.inr ?_)
        rw [if_pos (by simp only [List.isEmpty_nil, Bool.true_and, hnet])]
        simp
      · intro hmem
        rw [rm_state_networks_nil] at hmem
        have h2 := (List.mem_filter.mp hmem).2
        simp at h2
  · intro hs nk hm
    rcases rm_events_mem hm with ⟨c, _, _, hor⟩ | ⟨v, _, _, he⟩ | ⟨_, hemp⟩
    · rcases hor with he | he <;> cases he
    · cases he
    · rcases service with _ | ⟨a, l⟩
      · exact hs rfl
      · cases hemp

/-- Witness for C7: confirmed `rm` with no arguments removes the project
network and it is gone from the engine state. -/
theorem c7_witness :
    Event.removeNetwork "sentry" ∈ (rm c7State "sentry" [] true).2 ∧
    "sentry" ∉ (rm c7State "sentry" [] true).1.networks :=
  (c7_rm_accepted c7State "sentry" []).1.2.2.2.2 (by decide)

/-- C2: for a service marked with_devserver, `up` (which calls the reconciler
with always_start false) never issues a start call for its container, yet its
container exists afterwards (created or reused); `attach` on that service
(always_start true) always issues a start call for it, regardless of the prior
engine state. -/
theorem c2_devserver_deferred
    (fmt : List (String × ResolvedOptions) → String → String) (snuba : Bool)
    (st st2 : DockerState) (project : String)
    (registry : List (String × ServiceOptions)) (exclude : List String)
    (fast fast2 : Bool) (s : String) (opts : ResolvedOptions) (r : StartResult)
    (hlook : lookupService (_prepare_containers project registry) s = some opts)
    (hwd : opts.with_devserver = true)
    (hmem : s ∈ registry.map Prod.fst) (hnex : exclude.contains s = false)
    (hat : attach fmt snuba st2 project registry fast2 s = some r) :
    Event.startContainer opts.name ∉ (up fmt snuba st project registry exclude fast).2 ∧
    (findContainer (up fmt snuba st project registry exclude fast).1 opts.name).isSome
      = true ∧
    Event.startContainer opts.name ∈ r.events := by
  have hall : ∀ u opts_u,
      lookupService (_prepare_containers project registry) u = some opts_u →
      opts_u.name = opts.name → opts_u.with_devserver = true := by
    intro u opts_u hlu hnmeq
    have h1 := lookup_prepare_name hlu
    have h2 := lookup_prepare_name hlook
    have hus : u = s := project_name_inj (by rw [← h1, ← h2, hnmeq])
    subst hus
    have heq : opts_u = opts := Option.some.inj (hlu.symm.trans hlook)
    rw [heq]
    exact hwd
  refine ⟨?_, ?_, ?_⟩
  · rw [up_eq]
    intro hm
    rcases List.mem_append.mp hm with h1 | h1
    · split at h1 <;> simp at h1
    · exact upServices_no_start fmt snuba project (_prepare_containers project registry)
        exclude fast hall registry _ h1
  · rw [up_eq]
    rcases List.mem_map.mp hmem with ⟨e, he, he1⟩
    have hmem2 : (s, e.2) ∈ registry := by
      rw [← he1]
      simpa using he
    exact upServices_exists fmt snuba project (_prepare_containers project registry)
      exclude fast registry e.2 _ hmem2 hnex hlook
  · unfold attach _start_service at hat
    rw [hlook] at hat
    have hr := (Option.some.inj hat).symm
    subst hr
    exact startResolved_start_mem fmt snuba st2 s (_prepare_containers project registry)
      project fast2 opts

/-- Witness for C2 on a one-service deferred registry. -/
theorem c2_witness :
    Event.startContainer devserverOptions.name ∉
      (up idFmt false emptyState "sentry" devserverRegistry [] false).2 ∧
    (findContainer (up idFmt false emptyState "sentry" devserverRegistry [] false).1
      devserverOptions.name).isSome = true ∧
    Event.startContainer devserverOptions.name ∈ c2AttachResult.events :=
  c2_devserver_deferred idFmt false emptyState emptyState "sentry" devserverRegistry []
    false false "web" devserverOptions c2AttachResult (by decide) (by decide) (by decide)
    (by decide) (by decide)

/-- Counterexample to C3: for a service with the forced pull flag, a second
`up` immediately after the first recreates the container (stop, remove,
create) even though the service's spec and the locally present image are
unchanged — recreation is decided by the flag alone, never by comparing
images. -/
theorem c3_counterexample :
    Event.stopContainer "sentry_db" ∈ c3Second.2 ∧
    Event.removeContainer "sentry_db" ∈ c3Second.2 ∧
    Event.createContainer "sentry_db" ∈ c3Second.2 := by decide

/-- C3 amended: for every enabled, non-excluded service WITHOUT the forced
pull flag, a second `up` immediately after a previous `up` performs no
container create call and no recreate (stop/remove/create) call for that
service; a service with the forced pull flag is recreated on every run. -/
theorem c3_up_idempotent
    (fmt : List (String × ResolvedOptions) → String → String) (snuba : Bool)
    (st : DockerState) (project : String)
    (registry : List (String × ServiceOptions)) (exclude : List String)
    (fast1 fast2 : Bool) (s : String) (o : ServiceOptions)
    (hmem : (s, o) ∈ registry) (hnodup : (registry.map Prod.fst).Nodup)
    (honly : o.only_if = true) (hnex : exclude.contains s = false)
    (hpull : o.pull = false) :
    Event.createContainer (project ++ "_" ++ s) ∉
      (up fmt snuba (up fmt snuba st project registry exclude fast1).1 project registry
        exclude fast2).2 ∧
    Event.stopContainer (project ++ "_" ++ s) ∉
      (up fmt snuba (up fmt snuba st project registry exclude fast1).1 project registry
        exclude fast2).2 ∧
    Event.removeContainer (project ++ "_" ++ s) ∉
      (up fmt snuba (up fmt snuba st project registry exclude fast1).1 project registry
        exclude fast2).2 := by
  have hlook : lookupService (_prepare_containers project registry) s =
      some (resolveService project s o) := lookup_prepare_of_mem hmem hnodup honly
  have hex1 : (findContainer (up fmt snuba st project registry exclude fast1).1
      (resolveService project s o).name).isSome = true := by
    rw [up_eq]
    exact upServices_exists fmt snuba project (_prepare_containers project registry)
      exclude fast1 registry o _ hmem hnex hlook
  have hex2 : (findContainer
      (if (up fmt snuba st project registry exclude fast1).1.networks.contains project
        then (up fmt snuba st project registry exclude fast1).1
        else addNetwork (up fmt snuba st project registry exclude fast1).1 project)
      (resolveService project s o).name).isSome = true := by
    rw [findContainer_congr _ (ifNetwork_containers _ project)]
    exact hex1
  have hall : ∀ u opts_u,
      lookupService (_prepare_containers project registry) u = some opts_u →
      opts_u.name = (resolveService project s o).name → opts_u.pull = false := by
    intro u opts_u hlu heq
    have h1 := lookup_prepare_name hlu
    have hus : u = s := project_name_inj (by rw [← h1, heq, resolveService_name])
    subst hus
    have heq2 : opts_u = resolveService project u o :=
      Option.some.inj (hlu.symm.trans hlook)
    rw [heq2]
    exact hpull
  have hnc := upServices_no_churn fmt snuba project (_prepare_containers project registry)
    exclude fast2 hall registry _ hex2
  refine ⟨?_, ?_, ?_⟩ <;>
    · rw [up_eq]
      intro hm
      rcases List.mem_append.mp hm with h1 | h1
      · split at h1 <;> simp at h1
      · first
          | exact hnc.1 h1
          | exact hnc.2.1 h1
          | exact hnc.2.2 h1

/-- Witness for C3 amended: a plain service is not recreated by a second
`up`. -/
theorem c3_witness :
    Event.createContainer ("sentry" ++ "_" ++ "db") ∉
      (up idFmt false (up idFmt false emptyState "sentry" plainRegistry [] false).1
        "sentry" plainRegistry [] false).2 :=
  (c3_up_idempotent idFmt false emptyState "sentry" plainRegistry [] false false "db"
    { image := "postgres:9.6" } (by decide) (by decide) (by decide) (by decide)
    (by decide)).1

/-- Counterexample to C9: `_prepare_containers` copies each options dict only
shallowly (`options.copy()`), so the nested volumes dict of a registry entry is
the very dict object `_start_service` rewrites in place.  After reconciling the
service of `volumeRegistry`, that dict holds the project-namespaced key
"sentry_data" instead of the original "data": the original registry mapping is
not left unchanged. -/
theorem c9_counterexample :
    c9Run.map StartResult.volumesAfter =
      some [("sentry_data", "/var/lib/postgresql/data")] ∧
    some [("sentry_data", "/var/lib/postgresql/data")] ≠
      some [(("data" : String), ("/var/lib/postgresql/data" : String))] := by decide

/-- C9 amended: the registry mapping itself and every top-level option of each
entry are unchanged (the options dict is copied before being modified), but
the nested environment and volumes dicts are shared with the registry and are
mutated in place: after reconciling a service, every named-volume key (one
without a path separator) is rewritten to its project-namespaced form while
path-bearing entries are kept, nothing else is added, and — outside the snuba
special case — the environment values are replaced by their interpolated
forms. -/
theorem c9_registry_mutation
    (fmt : List (String × ResolvedOptions) → String → String) (snuba : Bool)
    (st : DockerState) (name : String) (containers : List (String × ResolvedOptions))
    (project : String) (fast always_start : Bool) (options : ResolvedOptions)
    (r : StartResult)
    (hlook : lookupService containers name = some options)
    (hrun : _start_service fmt snuba st name containers project fast always_start = some r) :
    (∀ k v, (k, v) ∈ options.volumes → containsChar k '/' = true →
      (k, v) ∈ r.volumesAfter) ∧
    (∀ k v, (k, v) ∈ options.volumes → containsChar k '/' = false →
      (project ++ "_" ++ k, v) ∈ r.volumesAfter) ∧
    (∀ kv ∈ r.volumesAfter,
      (kv ∈ options.volumes ∧ containsChar kv.1 '/' = true) ∨
      ∃ k0, kv.1 = project ++ "_" ++ k0 ∧ (k0, kv.2) ∈ options.volumes ∧
        containsChar k0 '/' = false) ∧
    (¬(name = "snuba" ∧ snuba = true) →
      r.envAfter = options.environment.map fun kv => (kv.1, fmt containers kv.2)) := by
  have hr : r = startResolved fmt snuba st name containers project fast always_start
      options := by
    unfold _start_service at hrun
    rw [hlook] at hrun
    exact (Option.some.inj hrun).symm
  subst hr
  have hva : (startResolved fmt snuba st name containers project fast always_start
      options).volumesAfter =
      (options.volumes.filter fun kv => containsChar kv.1 '/')
      ++ (options.volumes.filter fun kv => !(containsChar kv.1 '/')).map
          (fun kv => (project ++ "_" ++ kv.1, kv.2)) := rfl
  refine ⟨?_, ?_, ?_, ?_⟩
  · intro k v hm hc
    rw [hva]
    exact List.mem_append.mpr (Or.inl (List.mem_filter.mpr ⟨hm, hc⟩))
  · intro k v hm hc
    rw [hva]
    refine List.mem_append.mpr (Or.inr ?_)
    exact List.mem_map_of_mem _ (List.mem_filter.mpr ⟨hm, by rw [hc]; rfl⟩)
  · intro kv hkv
    rw [hva] at hkv
    rcases List.mem_append.mp hkv with h1 | h1
    · exact Or.inl ⟨(List.mem_filter.mp h1).1, (List.mem_filter.mp h1).2⟩
    · rcases List.mem_map.mp h1 with ⟨⟨k0, v0⟩, hk0, heq⟩
      rcases List.mem_filter.mp hk0 with ⟨hk1, hk2⟩
      subst heq
      exact Or.inr ⟨k0, rfl, hk1, by simpa using hk2⟩
  · intro hns
    have hcond : ((name == "snuba") && snuba) = false := by
      cases hsn : snuba
      · simp
      · have hname : name ≠ "snuba" := fun hh => hns ⟨hh, hsn⟩
        simp [hname]
    show ((if ((name == "snuba") && snuba) = true then
        options.environment.filter (fun kv => kv.1 ≠ "DEFAULT_BROKERS")
      else options.environment).map fun kv => (kv.1, fmt containers kv.2)) =
        options.environment.map fun kv => (kv.1, fmt containers kv.2)
    rw [hcond]
    simp

/-- Witness for C9 amended: the named mount "data" is rewritten in place to
"sentry_data". -/
theorem c9_witness :
    ("sentry" ++ "_" ++ "data", "/var/lib/postgresql/data") ∈ c9Result.volumesAfter :=
  (c9_registry_mutation idFmt false emptyState "db"
    (_prepare_containers "sentry" volumeRegistry) "sentry" false false volumeOptions
    c9Result (by decide) (by decide)).2.1 "data" "/var/lib/postgresql/data" (by decide)
    (by decide)

end Devservices
